import Mathlib

/-!
Verification of the detection postprocessing pipeline of
`src/ai-server/model_server.py` (Fire Extinguisher AI Detection Server).

The Python floats are modelled as rationals (`ℚ`).  The logistic function
`sigmoid` uses a transcendental exponential, which has no exact rational
counterpart; the pipeline is therefore parameterised by an abstract score
transform `sig : ℚ → ℚ` standing for `t ↦ 1/(1+exp(-t))`, while the input
clipping to `[-500, 500]` performed by `sigmoid` is modelled exactly.
-/

/-- Axis-aligned bounding box in corner format, as stored in
`Detection.bbox = [x1, y1, x2, y2]` by `postprocess_detections`. -/
structure Box where
  x1 : ℚ
  y1 : ℚ
  x2 : ℚ
  y2 : ℚ
deriving DecidableEq, Repr

/-- The `Detection` pydantic model of `model_server.py`. -/
structure Detection where
  class_name : String
  confidence : ℚ
  bbox : Box
deriving DecidableEq, Repr

/-- The `CLASS_NAMES` dictionary of `model_server.py`. -/
def classNames : Nat → Option String
  | 0 => some "shell"
  | 1 => some "hose"
  | 2 => some "nozzle"
  | 3 => some "pressure_gauge"
  | 4 => some "safety_pin"
  | 5 => some "pin_seal"
  | 6 => some "service_tag"
  | _ => none

/-- Lookup `CLASS_NAMES.get(class_id, f"unknown_class_{class_id}")`. -/
def className (i : Nat) : String :=
  (classNames i).getD ("unknown_class_" ++ toString i)

/-- Computation of `compute_iou(box1, box2)` from `model_server.py`. -/
def compute_iou (box1 box2 : Box) : ℚ :=
  let x1_i := max box1.x1 box2.x1
  let y1_i := max box1.y1 box2.y1
  let x2_i := min box1.x2 box2.x2
  let y2_i := min box1.y2 box2.y2
  if x2_i < x1_i ∨ y2_i < y1_i then 0
  else
    let intersection := (x2_i - x1_i) * (y2_i - y1_i)
    let area1 := (box1.x2 - box1.x1) * (box1.y2 - box1.y1)
    let area2 := (box2.x2 - box2.x1) * (box2.y2 - box2.y1)
    let union := area1 + area2 - intersection
    if union = 0 then 0 else intersection / union

/-- Stable insertion of a detection into a list sorted by descending
confidence: the inserted element goes after every element of strictly
greater or equal confidence, mirroring the stability of Python's
`sorted(detections, key=lambda x: x.confidence, reverse=True)`. -/
def insertDesc (d : Detection) : List Detection → List Detection
  | [] => [d]
  | x :: xs => if d.confidence < x.confidence then x :: insertDesc d xs else d :: x :: xs

/-- Stable sort by descending confidence (model of Python's `sorted` with
`key=lambda x: x.confidence, reverse=True`). -/
def sortDesc : List Detection → List Detection
  | [] => []
  | d :: ds => insertDesc d (sortDesc ds)

/-- Greedy suppression loop of `apply_nms`: pop the head (highest
confidence after sorting), keep it, and drop every remaining detection
whose IoU with it is `≥ iou_threshold`.  The `fuel` argument makes the
recursion structural; `apply_nms` supplies `fuel = length`, which is
always sufficient since filtering never lengthens the list. -/
def nmsLoop (t : ℚ) : Nat → List Detection → List Detection
  | _, [] => []
  | 0, _ :: _ => []
  | fuel + 1, best :: rest =>
      best :: nmsLoop t fuel (rest.filter (fun det => compute_iou best.bbox det.bbox < t))

/-- The `apply_nms(detections, iou_threshold)` function of
`model_server.py`: early-return `[]` on the empty list, otherwise sort by
descending confidence and run the greedy suppression loop. -/
def apply_nms (detections : List Detection) (iou_threshold : ℚ) : List Detection :=
  if detections.isEmpty then []
  else nmsLoop iou_threshold detections.length (sortDesc detections)

theorem mem_insertDesc {d x : Detection} {l : List Detection} :
    x ∈ insertDesc d l ↔ x = d ∨ x ∈ l := by
  induction l with
  | nil => simp [insertDesc]
  | cons a as ih =>
      simp only [insertDesc]
      split
      · simp [ih]
        tauto
      · simp

theorem insertDesc_perm (d : Detection) (l : List Detection) :
    (insertDesc d l).Perm (d :: l) := by
  induction l with
  | nil => simp [insertDesc]
  | cons a as ih =>
      simp only [insertDesc]
      split
      · exact (ih.cons a).trans (List.Perm.swap d a as)
      · exact List.Perm.refl _

theorem sortDesc_perm (l : List Detection) : (sortDesc l).Perm l := by
  induction l with
  | nil => simp [sortDesc]
  | cons d ds ih =>
      exact ((insertDesc_perm d (sortDesc ds)).trans (ih.cons d))

theorem sortDesc_length (l : List Detection) : (sortDesc l).length = l.length :=
  (sortDesc_perm l).length_eq

theorem mem_sortDesc {x : Detection} {l : List Detection} :
    x ∈ sortDesc l ↔ x ∈ l :=
  (sortDesc_perm l).mem_iff

/-- Descending-confidence order between two detections. -/
def ConfGE (a b : Detection) : Prop := b.confidence ≤ a.confidence

theorem insertDesc_sorted {d : Detection} {l : List Detection}
    (h : l.Pairwise ConfGE) : (insertDesc d l).Pairwise ConfGE := by
  induction l with
  | nil => simp [insertDesc, ConfGE]
  | cons a as ih =>
      rcases List.pairwise_cons.mp h with ⟨ha, has⟩
      simp only [insertDesc]
      split
      · rename_i hlt
        refine List.pairwise_cons.mpr ⟨?_, ih has⟩
        intro y hy
        rcases mem_insertDesc.mp hy with rfl | hy
        · exact le_of_lt hlt
        · exact ha y hy
      · rename_i hnlt
        refine List.pairwise_cons.mpr ⟨?_, h⟩
        intro y hy
        rcases List.mem_cons.mp hy with rfl | hy
        · exact le_of_not_lt hnlt
        · exact le_trans (ha y hy) (le_of_not_lt hnlt)

theorem sortDesc_sorted (l : List Detection) : (sortDesc l).Pairwise ConfGE := by
  induction l with
  | nil => simp [sortDesc]
  | cons d ds ih => exact insertDesc_sorted ih

theorem insertDesc_eq_cons {d : Detection} {l : List Detection}
    (h : ∀ y ∈ l, y.confidence ≤ d.confidence) : insertDesc d l = d :: l := by
  cases l with
  | nil => rfl
  | cons a as =>
      simp only [insertDesc]
      rw [if_neg]
      exact not_lt.mpr (h a (List.mem_cons_self a as))

theorem sortDesc_eq_of_sorted {l : List Detection}
    (h : l.Pairwise ConfGE) : sortDesc l = l := by
  induction l with
  | nil => rfl
  | cons d ds ih =>
      rcases List.pairwise_cons.mp h with ⟨hd, hds⟩
      simp only [sortDesc, ih hds]
      exact insertDesc_eq_cons (fun y hy => hd y hy)

theorem nmsLoop_sublist (t : ℚ) : ∀ (fuel : Nat) (l : List Detection),
    (nmsLoop t fuel l).Sublist l := by
  intro fuel
  induction fuel with
  | zero =>
      intro l
      cases l with
      | nil => simp [nmsLoop]
      | cons a as => simp [nmsLoop]
  | succ n ih =>
      intro l
      cases l with
      | nil => simp [nmsLoop]
      | cons best rest =>
          simp only [nmsLoop]
          exact (List.Sublist.trans (ih _) (List.filter_sublist rest)).cons₂ best

theorem nmsLoop_pairwise (t : ℚ) : ∀ (fuel : Nat) (l : List Detection),
    (nmsLoop t fuel l).Pairwise (fun a b => compute_iou a.bbox b.bbox < t) := by
  intro fuel
  induction fuel with
  | zero =>
      intro l
      cases l with
      | nil => simp [nmsLoop]
      | cons a as => simp [nmsLoop]
  | succ n ih =>
      intro l
      cases l with
      | nil => simp [nmsLoop]
      | cons best rest =>
          simp only [nmsLoop]
          refine List.pairwise_cons.mpr ⟨?_, ih _⟩
          intro b hb
          have hbf := (nmsLoop_sublist t n _).subset hb
          have := List.of_mem_filter hbf
          exact of_decide_eq_true this

theorem nmsLoop_eq_self (t : ℚ) : ∀ (fuel : Nat) (l : List Detection),
    l.Pairwise (fun a b => compute_iou a.bbox b.bbox < t) →
    l.length ≤ fuel → nmsLoop t fuel l = l := by
  intro fuel
  induction fuel with
  | zero =>
      intro l hp hl
      have : l = [] := List.length_eq_zero.mp (Nat.le_zero.mp hl)
      subst this
      simp [nmsLoop]
  | succ n ih =>
      intro l hp hl
      cases l with
      | nil => simp [nmsLoop]
      | cons best rest =>
          rcases List.pairwise_cons.mp hp with ⟨hbest, hrest⟩
          simp only [nmsLoop]
          have hfil : rest.filter (fun det => compute_iou best.bbox det.bbox < t) = rest := by
            apply List.filter_eq_self.mpr
            intro b hb
            exact decide_eq_true (hbest b hb)
          rw [hfil, ih rest hrest (Nat.le_of_succ_le_succ hl)]

theorem compute_iou_symm (b1 b2 : Box) : compute_iou b1 b2 = compute_iou b2 b1 := by
  simp only [compute_iou]
  rw [max_comm b1.x1 b2.x1, max_comm b1.y1 b2.y1, min_comm b1.x2 b2.x2, min_comm b1.y2 b2.y2,
    add_comm ((b1.x2 - b1.x1) * (b1.y2 - b1.y1)) ((b2.x2 - b2.x1) * (b2.y2 - b2.y1))]

theorem apply_nms_eq (detections : List Detection) (t : ℚ) :
    apply_nms detections t = nmsLoop t detections.length (sortDesc detections) := by
  unfold apply_nms
  split
  · rename_i h
    rw [List.isEmpty_iff.mp h]
    rfl
  · rfl

theorem apply_nms_subset {detections : List Detection} {t : ℚ} :
    ∀ d ∈ apply_nms detections t, d ∈ detections := by
  intro d hd
  rw [apply_nms_eq] at hd
  exact mem_sortDesc.mp ((nmsLoop_sublist t _ _).subset hd)

theorem apply_nms_length (detections : List Detection) (t : ℚ) :
    (apply_nms detections t).length ≤ detections.length := by
  rw [apply_nms_eq]
  calc (nmsLoop t detections.length (sortDesc detections)).length
      ≤ (sortDesc detections).length := (nmsLoop_sublist t _ _).length_le
    _ = detections.length := sortDesc_length detections

theorem apply_nms_pairwise (detections : List Detection) (t : ℚ) :
    (apply_nms detections t).Pairwise (fun a b => compute_iou a.bbox b.bbox < t) := by
  rw [apply_nms_eq]
  exact nmsLoop_pairwise t _ _

theorem apply_nms_sorted (detections : List Detection) (t : ℚ) :
    (apply_nms detections t).Pairwise ConfGE := by
  rw [apply_nms_eq]
  exact (sortDesc_sorted detections).sublist (nmsLoop_sublist t _ _)

theorem apply_nms_fixed {l : List Detection} {t : ℚ}
    (hs : l.Pairwise ConfGE)
    (hp : l.Pairwise (fun a b => compute_iou a.bbox b.bbox < t)) :
    apply_nms l t = l := by
  rw [apply_nms_eq, sortDesc_eq_of_sorted hs, nmsLoop_eq_self t l.length l hp (le_refl _)]

/-- Matrix transpose on a rectangular list-of-rows matrix, modelling
`np.transpose(m, (1, 0))` (numpy arrays are always rectangular). -/
def transposeQ : List (List ℚ) → List (List ℚ)
  | [] => []
  | r :: rs =>
      match transposeQ rs with
      | [] => r.map (fun x => [x])
      | t => r.zipWith List.cons t

/-- Raw output tensor of the inference call: a 2-D or 3-D numeric array
(`outputs[0]` in `run_detection`).  The 3-D case carries the list of
batch elements, each a rectangular matrix. -/
inductive RawTensor where
  | t2 (m : List (List ℚ))
  | t3 (batch : List (List (List ℚ)))
deriving Repr

/-- Shape normalization step of `postprocess_detections`: a 3-D tensor has
its batch axis dropped and is transposed unconditionally
(`np.transpose(outputs[0], (1, 0))`); a 2-D tensor is transposed exactly
when `outputs.shape[0] < outputs.shape[1]`. -/
def normalizeShape : RawTensor → List (List ℚ)
  | .t3 batch => transposeQ (batch.headD [])
  | .t2 m => if m.length < (m.headD []).length then transposeQ m else m

/-- The feature count `outputs.shape[1]` of a (rectangular) normalized
matrix. -/
def numFeatures (m : List (List ℚ)) : Nat := (m.headD []).length

/-- The sampled class scores `outputs[:100, 4:]` used by the calibration
heuristic, flattened. -/
def sampleScores (m : List (List ℚ)) : List ℚ :=
  ((m.take 100).map (fun r => r.drop 4)).flatten

/-- Clipping `np.clip(x, lo, hi)`. -/
def clip (x lo hi : ℚ) : ℚ := min (max x lo) hi

/-- Score calibration of `postprocess_detections`: when the sampled
maximum `mx` satisfies `mx > 1.0 or mx < 0.0`, apply the (abstracted)
logistic `sig` — after the exact clip to `[-500, 500]` performed inside
`sigmoid` — to every class-score column `outputs[:, 4:]` of the full
tensor; otherwise leave the tensor untouched. -/
def calibrate (sig : ℚ → ℚ) (m : List (List ℚ)) (mx : ℚ) : List (List ℚ) :=
  if 1 < mx ∨ mx < 0 then
    m.map (fun r => r.take 4 ++ (r.drop 4).map (fun x => sig (clip x (-500) 500)))
  else m

/-- First-maximum scan modelling `np.argmax`: starting from best index
`bi` with best value `bv`, a later value replaces the best only when
strictly greater.  Returns `(argmax, max)`. -/
def argmaxFrom (i bi : Nat) (bv : ℚ) : List ℚ → Nat × ℚ
  | [] => (bi, bv)
  | x :: xs => if bv < x then argmaxFrom (i + 1) i x xs else argmaxFrom (i + 1) bi bv xs

/-- Per-row body of the detection loop of `postprocess_detections`: split
the row into `x_center, y_center, width, height` and class scores, take
`class_id = argmax(scores)` and `confidence = scores[class_id]`, reject
the row when `confidence < min_confidence`, otherwise convert to corner
format, scale by `img_dimension / model_size`, clip into the image, and
build the `Detection`.  Rows with fewer than 5 entries produce no
detection (in the Python code such rows only arise when the earlier
`np.max` over an empty score slice has already raised). -/
def decodeRow (min_confidence img_width img_height model_size : ℚ) :
    List ℚ → Option Detection
  | x_center :: y_center :: width :: height :: s :: ss =>
      let am := argmaxFrom 1 0 s ss
      let confidence := am.2
      if confidence < min_confidence then none
      else
        let x1 := (x_center - width / 2) * img_width / model_size
        let y1 := (y_center - height / 2) * img_height / model_size
        let x2 := (x_center + width / 2) * img_width / model_size
        let y2 := (y_center + height / 2) * img_height / model_size
        some
          { class_name := className am.1
            confidence := confidence
            bbox :=
              { x1 := max 0 (min x1 img_width)
                y1 := max 0 (min y1 img_height)
                x2 := max 0 (min x2 img_width)
                y2 := max 0 (min y2 img_height) } }
  | _ => none

/-- Error taxonomy for the per-image pipeline (spec §7).  The Python code
signals `MalformedOutputError` as the `ValueError` numpy raises when
`np.max` reduces the empty score sample slice. -/
inductive PerImageError where
  | imageDecode
  | malformedOutput
  | other
deriving DecidableEq, Repr

/-- Tail of `postprocess_detections` after the sampled maximum `mx` has
been computed: calibrate the scores, decode every row, drop low
confidences, and deduplicate with NMS at IoU threshold `0.5` (NMS is run
only on a non-empty list, exactly as in the Python code). -/
def postprocessBody (sig : ℚ → ℚ) (outputs : List (List ℚ))
    (mx min_confidence img_width img_height model_size : ℚ) :
    Except PerImageError (List Detection) :=
  let outputs2 := calibrate sig outputs mx
  let dets := outputs2.filterMap (decodeRow min_confidence img_width img_height model_size)
  .ok (if dets.isEmpty then dets else apply_nms dets (1 / 2))

/-- The `postprocess_detections` function of `model_server.py`,
parameterised by the abstract logistic `sig` and by the model input size
(`input_shape[2]`, 640 for this model).  Normalize the tensor shape,
sample the first 100 rows of class scores (an empty sample makes
`np.max` raise, modelled as `malformedOutput`), take their maximum, and
run the calibrated decode-filter-NMS body. -/
def postprocess_detections (sig : ℚ → ℚ) (raw : RawTensor)
    (min_confidence img_width img_height model_size : ℚ) :
    Except PerImageError (List Detection) :=
  let outputs := normalizeShape raw
  match sampleScores outputs with
  | [] => .error .malformedOutput
  | s :: ss =>
      postprocessBody sig outputs (ss.foldl max s) min_confidence img_width img_height model_size

/-- The `ImageResult` pydantic model. -/
structure ImageResult where
  stepId : String
  detections : List Detection
deriving DecidableEq, Repr

/-- The `DetectionResponse` pydantic model (the `error` field is omitted:
`detect` never sets it). -/
structure DetectionResponse where
  success : Bool
  results : List ImageResult
deriving DecidableEq, Repr

/-- Per-image loop body of the `detect` endpoint: each image is paired
with the outcome of decoding plus detection (an `Except`, abstracting any
exception raised while processing that image); the per-image
`try/except` turns a failure into an empty detection list for the same
`stepId`. -/
def processImage (p : String × Except PerImageError (List Detection)) : ImageResult :=
  match p.2 with
  | .ok ds => ⟨p.1, ds⟩
  | .error _ => ⟨p.1, []⟩

/-- The `detect` endpoint of `model_server.py`, abstracted over the
per-image processing outcomes.  The inner body raises HTTP 503 when the
model is unloaded and otherwise returns `success=True` with the
per-image results; the surrounding blanket `except Exception` re-raises
any escaping exception — including that 503 `HTTPException` — as
HTTP 500. -/
def detect (modelLoaded : Bool)
    (images : List (String × Except PerImageError (List Detection))) :
    Except Nat DetectionResponse :=
  let inner : Except Nat DetectionResponse :=
    if modelLoaded then .ok ⟨true, images.map processImage⟩
    else .error 503
  match inner with
  | .ok r => .ok r
  | .error _ => .error 500

theorem decodeRow_some_conf {mc W H ms : ℚ} {r : List ℚ} {d : Detection}
    (h : decodeRow mc W H ms r = some d) : mc ≤ d.confidence := by
  match r with
  | [] => simp [decodeRow] at h
  | [_] => simp [decodeRow] at h
  | [_, _] => simp [decodeRow] at h
  | [_, _, _] => simp [decodeRow] at h
  | [_, _, _, _] => simp [decodeRow] at h
  | xc :: yc :: w :: hh :: s :: ss =>
      simp only [decodeRow] at h
      split at h
      · exact absurd h (by simp)
      · rename_i hlt
        rcases Option.some.inj h with rfl
        exact le_of_not_lt hlt

theorem decodeRow_some_bbox {mc W H ms : ℚ} {r : List ℚ} {d : Detection}
    (hW : 0 ≤ W) (hH : 0 ≤ H) (h : decodeRow mc W H ms r = some d) :
    0 ≤ d.bbox.x1 ∧ d.bbox.x1 ≤ W ∧ 0 ≤ d.bbox.y1 ∧ d.bbox.y1 ≤ H ∧
    0 ≤ d.bbox.x2 ∧ d.bbox.x2 ≤ W ∧ 0 ≤ d.bbox.y2 ∧ d.bbox.y2 ≤ H := by
  match r with
  | [] => simp [decodeRow] at h
  | [_] => simp [decodeRow] at h
  | [_, _] => simp [decodeRow] at h
  | [_, _, _] => simp [decodeRow] at h
  | [_, _, _, _] => simp [decodeRow] at h
  | xc :: yc :: w :: hh :: s :: ss =>
      simp only [decodeRow] at h
      split at h
      · exact absurd h (by simp)
      · rcases Option.some.inj h with rfl
        refine ⟨le_max_left _ _, max_le hW (min_le_right _ _),
          le_max_left _ _, max_le hH (min_le_right _ _),
          le_max_left _ _, max_le hW (min_le_right _ _),
          le_max_left _ _, max_le hH (min_le_right _ _)⟩

theorem postprocess_ok_mem {sig : ℚ → ℚ} {raw : RawTensor} {mc W H ms : ℚ}
    {dets : List Detection} {d : Detection}
    (h : postprocess_detections sig raw mc W H ms = .ok dets) (hd : d ∈ dets) :
    ∃ r, decodeRow mc W H ms r = some d := by
  rcases hs : sampleScores (normalizeShape raw) with _ | ⟨s, ss⟩
  · simp only [postprocess_detections, hs] at h
    exact Except.noConfusion h
  · simp only [postprocess_detections, hs, postprocessBody] at h
    rcases Except.ok.inj h with rfl
    have hd0 : d ∈ (calibrate sig (normalizeShape raw) (ss.foldl max s)).filterMap
        (decodeRow mc W H ms) := by
      by_cases he :
          ((calibrate sig (normalizeShape raw) (ss.foldl max s)).filterMap
            (decodeRow mc W H ms)).isEmpty
      · rw [if_pos he] at hd
        exact hd
      · rw [if_neg he] at hd
        exact apply_nms_subset d hd
    rcases List.mem_filterMap.mp hd0 with ⟨r, _, hr⟩
    exact ⟨r, hr⟩

theorem le_foldl_max (l : List ℚ) (a : ℚ) : a ≤ l.foldl max a := by
  induction l generalizing a with
  | nil => exact le_refl a
  | cons x xs ih => exact le_trans (le_max_left a x) (ih (max a x))

theorem foldl_max_le {l : List ℚ} {a b : ℚ} (ha : a ≤ b) (h : ∀ x ∈ l, x ≤ b) :
    l.foldl max a ≤ b := by
  induction l generalizing a with
  | nil => exact ha
  | cons x xs ih =>
      exact ih (max_le ha (h x (List.mem_cons_self x xs))) (fun y hy => h y (List.mem_cons_of_mem x hy))

theorem calibrate_of_not_logits {sig : ℚ → ℚ} {m : List (List ℚ)} {mx : ℚ}
    (h : ¬(1 < mx ∨ mx < 0)) : calibrate sig m mx = m := by
  simp only [calibrate, if_neg h]

theorem calibrate_of_logits {sig : ℚ → ℚ} {m : List (List ℚ)} {mx : ℚ}
    (h : 1 < mx ∨ mx < 0) :
    calibrate sig m mx =
      m.map (fun r => r.take 4 ++ (r.drop 4).map (fun x => sig (clip x (-500) 500))) := by
  simp only [calibrate, if_pos h]

theorem postprocess_sig_irrel (sig : ℚ → ℚ) (raw : RawTensor) (mc W H ms : ℚ)
    (h : ∀ x ∈ sampleScores (normalizeShape raw), 0 ≤ x ∧ x ≤ 1) :
    postprocess_detections sig raw mc W H ms = postprocess_detections id raw mc W H ms := by
  rcases hs : sampleScores (normalizeShape raw) with _ | ⟨s, ss⟩
  · simp only [postprocess_detections, hs]
  · have hmem : ∀ x ∈ s :: ss, x ≤ 1 := by
      intro x hx
      exact (h x (hs ▸ hx)).2
    have hmax : ss.foldl max s ≤ 1 :=
      foldl_max_le (hmem s (List.mem_cons_self s ss))
        (fun y hy => hmem y (List.mem_cons_of_mem s hy))
    have hmin : 0 ≤ ss.foldl max s :=
      le_trans (h s (hs ▸ List.mem_cons_self s ss)).1 (le_foldl_max ss s)
    have hcond : ¬(1 < ss.foldl max s ∨ ss.foldl max s < 0) := by
      push_neg
      exact ⟨hmax, hmin⟩
    simp only [postprocess_detections, hs, postprocessBody, calibrate_of_not_logits hcond]

theorem sampleScores_eq_nil {m : List (List ℚ)} (h : ∀ r ∈ m, r.length < 5) :
    sampleScores m = [] := by
  unfold sampleScores
  rw [List.flatten_eq_nil_iff]
  intro l hl
  rcases List.mem_map.mp hl with ⟨r, hr, rfl⟩
  have : r.length ≤ 4 := Nat.lt_succ_iff.mp (h r (List.take_subset 100 m hr))
  exact List.drop_eq_nil_of_le this

theorem postprocess_malformed {sig : ℚ → ℚ} {raw : RawTensor} {mc W H ms : ℚ}
    (hrect : ∀ r ∈ normalizeShape raw, r.length = numFeatures (normalizeShape raw))
    (h5 : numFeatures (normalizeShape raw) < 5) :
    postprocess_detections sig raw mc W H ms = .error .malformedOutput := by
  have hs : sampleScores (normalizeShape raw) = [] :=
    sampleScores_eq_nil (fun r hr => (hrect r hr).symm ▸ h5)
  simp only [postprocess_detections, hs]

/-- C1: for every raw output tensor, image dimensions, and threshold
`min_confidence`, every `Detection` in the list returned by
`postprocess_detections` has `confidence ≥ min_confidence`: rows below
the threshold are rejected with no box emitted, and NMS — which only
ever removes detections — never reintroduces one. -/
theorem confidence_filter (sig : ℚ → ℚ) (raw : RawTensor) (mc W H ms : ℚ)
    (dets : List Detection) (h : postprocess_detections sig raw mc W H ms = .ok dets) :
    ∀ d ∈ dets, mc ≤ d.confidence := by
  intro d hd
  rcases postprocess_ok_mem h hd with ⟨r, hr⟩
  exact decodeRow_some_conf hr

set_option maxRecDepth 8000

theorem confidence_filter_witness :
    postprocess_detections id (RawTensor.t3 [[[320], [320], [100], [200], [9/10]]])
        (1/2) 640 640 640 =
      .ok [⟨"shell", 9/10, ⟨270, 220, 370, 420⟩⟩] ∧
    (1/2 : ℚ) ≤ (Detection.mk "shell" (9/10) ⟨270, 220, 370, 420⟩).confidence := by
  have h : postprocess_detections id (RawTensor.t3 [[[320], [320], [100], [200], [9/10]]])
      (1/2) 640 640 640 = .ok [⟨"shell", 9/10, ⟨270, 220, 370, 420⟩⟩] := by
    norm_num [postprocess_detections, normalizeShape, transposeQ, sampleScores,
      postprocessBody, calibrate, decodeRow, argmaxFrom, className, classNames, apply_nms,
      nmsLoop, sortDesc, insertDesc, compute_iou, clip, List.filterMap_cons, List.filterMap_nil]
  exact ⟨h, confidence_filter id _ _ _ _ _ _ h _ (by simp)⟩

/-- C4: `apply_nms` is idempotent — applying it to its own output returns
that output unchanged — and no two detections it keeps have IoU ≥ t with
each other (in either order, by symmetry of `compute_iou`). -/
theorem nms_idempotent (dets : List Detection) (t : ℚ) :
    apply_nms (apply_nms dets t) t = apply_nms dets t ∧
    (apply_nms dets t).Pairwise
      (fun a b => compute_iou a.bbox b.bbox < t ∧ compute_iou b.bbox a.bbox < t) := by
  have hp := apply_nms_pairwise dets t
  have hsorted := apply_nms_sorted dets t
  refine ⟨apply_nms_fixed hsorted hp, ?_⟩
  exact hp.imp (fun hab => ⟨hab, by rwa [compute_iou_symm]⟩)

/-- C9 (counterexample): two identical degenerate boxes have IoU 0, not
1.0 — `compute_iou` returns 0 whenever the union area is 0, so the claim
"two identical boxes have IoU = 1.0" fails on zero-area boxes. -/
theorem iou_boundary_cex :
    compute_iou ⟨0, 0, 0, 0⟩ ⟨0, 0, 0, 0⟩ = 0 ∧ (0 : ℚ) ≠ 1 := by
  constructor
  · norm_num [compute_iou]
  · norm_num

/-- C9 (amended): identical boxes of positive area have IoU exactly 1;
boxes whose intersection rectangle is empty have IoU 0; and whenever the
union area is 0 the IoU is 0 (degenerate empty boxes never suppress
anything). -/
theorem iou_boundary_amended :
    (∀ b : Box, b.x1 < b.x2 → b.y1 < b.y2 → compute_iou b b = 1) ∧
    (∀ b1 b2 : Box,
      (min b1.x2 b2.x2 < max b1.x1 b2.x1 ∨ min b1.y2 b2.y2 < max b1.y1 b2.y1) →
      compute_iou b1 b2 = 0) ∧
    (∀ b1 b2 : Box,
      ¬(min b1.x2 b2.x2 < max b1.x1 b2.x1 ∨ min b1.y2 b2.y2 < max b1.y1 b2.y1) →
      (b1.x2 - b1.x1) * (b1.y2 - b1.y1) + (b2.x2 - b2.x1) * (b2.y2 - b2.y1) -
        (min b1.x2 b2.x2 - max b1.x1 b2.x1) * (min b1.y2 b2.y2 - max b1.y1 b2.y1) = 0 →
      compute_iou b1 b2 = 0) := by
  refine ⟨?_, ?_, ?_⟩
  · intro b hx hy
    have hA : 0 < (b.x2 - b.x1) * (b.y2 - b.y1) :=
      mul_pos (sub_pos.mpr hx) (sub_pos.mpr hy)
    simp only [compute_iou, max_self, min_self]
    rw [if_neg (by rw [not_or]; exact ⟨not_lt.mpr (le_of_lt hx), not_lt.mpr (le_of_lt hy)⟩)]
    rw [add_sub_cancel_right]
    rw [if_neg (ne_of_gt hA)]
    exact div_self (ne_of_gt hA)
  · intro b1 b2 hcond
    simp only [compute_iou]
    rw [if_pos hcond]
  · intro b1 b2 hncond hunion
    simp only [compute_iou]
    rw [if_neg hncond, if_pos hunion]

theorem iou_boundary_witness : compute_iou ⟨0, 0, 2, 2⟩ ⟨0, 0, 2, 2⟩ = 1 :=
  iou_boundary_amended.1 ⟨0, 0, 2, 2⟩ (by norm_num) (by norm_num)

/-- C10: `apply_nms` never creates or alters detections — every element
of its output is an element of its input (unchanged), the output is at
most as long as the input, and the empty list maps to the empty list. -/
theorem nms_no_creation (dets : List Detection) (t : ℚ) :
    (∀ d ∈ apply_nms dets t, d ∈ dets) ∧
    (apply_nms dets t).length ≤ dets.length ∧
    apply_nms [] t = [] :=
  ⟨fun d hd => apply_nms_subset d hd, apply_nms_length dets t, rfl⟩

theorem nms_no_creation_witness :
    Detection.mk "shell" 1 ⟨0, 0, 1, 1⟩ ∈ [Detection.mk "shell" 1 ⟨0, 0, 1, 1⟩] :=
  (nms_no_creation [⟨"shell", 1, ⟨0, 0, 1, 1⟩⟩] (1/2)).1 _
    (by norm_num [apply_nms, nmsLoop, sortDesc, insertDesc])

/-- C2 (counterexample): a prediction row with negative width survives
the pipeline with `x1 > x2`: each coordinate is clipped into `[0, W]`
individually, but clipping cannot restore the corner ordering, so the
claimed invariant `x1 ≤ x2` fails. -/
theorem clipping_cex :
    postprocess_detections id (RawTensor.t3 [[[320], [320], [-100], [200], [9/10]]])
        (1/2) 640 640 640 =
      .ok [⟨"shell", 9/10, ⟨370, 220, 270, 420⟩⟩] ∧
    ¬((370 : ℚ) ≤ 270) := by
  constructor
  · norm_num [postprocess_detections, normalizeShape, transposeQ, sampleScores,
      postprocessBody, calibrate, decodeRow, argmaxFrom, className, classNames, apply_nms,
      nmsLoop, sortDesc, insertDesc, compute_iou, clip, List.filterMap_cons, List.filterMap_nil]
  · norm_num

/-- C2 (amended): for nonnegative image dimensions, every bbox coordinate
of every returned detection is clipped into `[0, W]` respectively
`[0, H]`; the corner orderings `x1 ≤ x2` and `y1 ≤ y2` are not
guaranteed for rows with negative width or height. -/
theorem clipping_amended (sig : ℚ → ℚ) (raw : RawTensor) (mc W H ms : ℚ)
    (dets : List Detection) (hW : 0 ≤ W) (hH : 0 ≤ H)
    (h : postprocess_detections sig raw mc W H ms = .ok dets) :
    ∀ d ∈ dets,
      0 ≤ d.bbox.x1 ∧ d.bbox.x1 ≤ W ∧ 0 ≤ d.bbox.y1 ∧ d.bbox.y1 ≤ H ∧
      0 ≤ d.bbox.x2 ∧ d.bbox.x2 ≤ W ∧ 0 ≤ d.bbox.y2 ∧ d.bbox.y2 ≤ H := by
  intro d hd
  rcases postprocess_ok_mem h hd with ⟨r, hr⟩
  exact decodeRow_some_bbox hW hH hr

theorem clipping_amended_witness :
    postprocess_detections id (RawTensor.t3 [[[320], [320], [100], [200], [9/10]]])
        (1/2) 640 640 640 =
      .ok [⟨"shell", 9/10, ⟨270, 220, 370, 420⟩⟩] ∧
    (0 ≤ (270 : ℚ) ∧ (270 : ℚ) ≤ 640 ∧ 0 ≤ (220 : ℚ) ∧ (220 : ℚ) ≤ 640 ∧
     0 ≤ (370 : ℚ) ∧ (370 : ℚ) ≤ 640 ∧ 0 ≤ (420 : ℚ) ∧ (420 : ℚ) ≤ 640) := by
  have h : postprocess_detections id (RawTensor.t3 [[[320], [320], [100], [200], [9/10]]])
      (1/2) 640 640 640 = .ok [⟨"shell", 9/10, ⟨270, 220, 370, 420⟩⟩] := by
    norm_num [postprocess_detections, normalizeShape, transposeQ, sampleScores,
      postprocessBody, calibrate, decodeRow, argmaxFrom, className, classNames, apply_nms,
      nmsLoop, sortDesc, insertDesc, compute_iou, clip, List.filterMap_cons, List.filterMap_nil]
  exact ⟨h, clipping_amended id _ _ _ _ _ _ (by norm_num) (by norm_num) h
    ⟨"shell", 9/10, ⟨270, 220, 370, 420⟩⟩ (by simp)⟩

/-- C3 (Scenario A): on the `(1, 11, 3)` tensor holding one row with
center `(320, 320)`, size `100 × 200`, and class scores
`[0.9, 0.1, 0, 0, 0, 0, 0]` (sample max ≤ 1, so no calibration — the
result does not depend on the logistic `sig`), with `min_confidence =
0.5` on a 640×640 image at model size 640, the pipeline returns exactly
one detection: the index-0 label `"shell"` with confidence `0.9` and
bbox `[270, 220, 370, 420]`. -/
theorem scenario_a (sig : ℚ → ℚ) :
    postprocess_detections sig
        (RawTensor.t3 [[[320, 0, 0], [320, 0, 0], [100, 0, 0], [200, 0, 0], [9/10, 0, 0],
          [1/10, 0, 0], [0, 0, 0], [0, 0, 0], [0, 0, 0], [0, 0, 0], [0, 0, 0]]])
        (1/2) 640 640 640 =
      .ok [⟨"shell", 9/10, ⟨270, 220, 370, 420⟩⟩] ∧
    className 0 = "shell" := by
  constructor
  · rw [postprocess_sig_irrel sig _ _ _ _ _
      (by norm_num [sampleScores, normalizeShape, transposeQ])]
    norm_num [postprocess_detections, normalizeShape, transposeQ, sampleScores,
      postprocessBody, calibrate, decodeRow, argmaxFrom, className, classNames, apply_nms,
      nmsLoop, sortDesc, insertDesc, compute_iou, clip, List.filterMap_cons, List.filterMap_nil]
  · rfl

/-- C5: the logistic is applied — composed with the exact clip of its
input to `[-500, 500]` — to every class-score entry of the full tensor
exactly when the maximum sampled class score (over the first 100 rows,
or fewer) is `> 1` or `< 0`; otherwise the tensor passes through
unchanged, and on an already-calibrated sample (all scores in `[0, 1]`)
the whole pipeline is independent of the logistic. -/
theorem score_calibration :
    (∀ (sig : ℚ → ℚ) (raw : RawTensor) (mc W H ms s : ℚ) (ss : List ℚ),
        sampleScores (normalizeShape raw) = s :: ss →
        postprocess_detections sig raw mc W H ms =
          postprocessBody sig (normalizeShape raw) (ss.foldl max s) mc W H ms) ∧
    (∀ (sig : ℚ → ℚ) (m : List (List ℚ)) (mx : ℚ), (1 < mx ∨ mx < 0) →
        calibrate sig m mx =
          m.map (fun r => r.take 4 ++ (r.drop 4).map (fun x => sig (clip x (-500) 500)))) ∧
    (∀ (sig : ℚ → ℚ) (m : List (List ℚ)) (mx : ℚ), ¬(1 < mx ∨ mx < 0) →
        calibrate sig m mx = m) ∧
    (∀ (sig : ℚ → ℚ) (raw : RawTensor) (mc W H ms : ℚ),
        (∀ x ∈ sampleScores (normalizeShape raw), 0 ≤ x ∧ x ≤ 1) →
        postprocess_detections sig raw mc W H ms = postprocess_detections id raw mc W H ms) := by
  refine ⟨?_, ?_, ?_, ?_⟩
  · intro sig raw mc W H ms s ss hs
    simp only [postprocess_detections, hs]
  · intro sig m mx h
    exact calibrate_of_logits h
  · intro sig m mx h
    exact calibrate_of_not_logits h
  · intro sig raw mc W H ms h
    exact postprocess_sig_irrel sig raw mc W H ms h

theorem score_calibration_witness :
    calibrate (fun _ => 7) [[0, 0, 0, 0, 50]] 50 = [[0, 0, 0, 0, 7]] ∧
    postprocess_detections (fun _ => 0)
        (RawTensor.t3 [[[320], [320], [100], [200], [9/10]]]) (1/2) 640 640 640 =
      postprocess_detections id
        (RawTensor.t3 [[[320], [320], [100], [200], [9/10]]]) (1/2) 640 640 640 := by
  constructor
  · rw [score_calibration.2.1 (fun _ => 7) [[0, 0, 0, 0, 50]] 50 (by norm_num)]
    norm_num [clip]
  · exact score_calibration.2.2.2 (fun _ => 0) _ (1/2) 640 640 640
      (by norm_num [sampleScores, normalizeShape, transposeQ])

/-- C6: when the normalized (rectangular) tensor has fewer than 5
features per row, postprocessing signals `malformedOutput` instead of
proceeding (in the Python code, `np.max` raises on the empty score
slice), and at the `detect` endpoint a per-image error yields an
`ImageResult` with that image's `stepId` and an empty detection list
while the batch response still reports `success = true`. -/
theorem malformed_output :
    (∀ (sig : ℚ → ℚ) (raw : RawTensor) (mc W H ms : ℚ),
        (∀ r ∈ normalizeShape raw, r.length = numFeatures (normalizeShape raw)) →
        numFeatures (normalizeShape raw) < 5 →
        postprocess_detections sig raw mc W H ms = .error .malformedOutput) ∧
    (∀ (sid : String) (e : PerImageError),
        detect true [(sid, .error e)] = .ok ⟨true, [⟨sid, []⟩]⟩) := by
  constructor
  · intro sig raw mc W H ms hrect h5
    exact postprocess_malformed hrect h5
  · intro sid e
    rfl

theorem malformed_output_witness :
    postprocess_detections id (RawTensor.t3 [[[1, 1, 1], [1, 1, 1], [1, 1, 1]]])
        (1/2) 640 640 640 =
      .error .malformedOutput ∧
    detect true [("step-1",
        postprocess_detections id (RawTensor.t3 [[[1, 1, 1], [1, 1, 1], [1, 1, 1]]])
          (1/2) 640 640 640)] =
      .ok ⟨true, [⟨"step-1", []⟩]⟩ := by
  have h := malformed_output.1 id (RawTensor.t3 [[[1, 1, 1], [1, 1, 1], [1, 1, 1]]])
    (1/2) 640 640 640
    (by norm_num [normalizeShape, transposeQ, numFeatures])
    (by norm_num [normalizeShape, transposeQ, numFeatures])
  refine ⟨h, ?_⟩
  rw [h]
  exact malformed_output.2 "step-1" .malformedOutput

/-- C7 (counterexample): for a 3-D tensor of shape `(1, 3, 2)` the code
transposes unconditionally after dropping the batch axis, so the larger
of the two remaining dimensions (3) ends up on axis 1, not axis 0 as the
claim states. -/
theorem shape_normalization_cex :
    normalizeShape (RawTensor.t3 [[[1, 2], [3, 4], [5, 6]]]) = [[1, 3, 5], [2, 4, 6]] ∧
    ¬((normalizeShape (RawTensor.t3 [[[1, 2], [3, 4], [5, 6]]])).length = 3) := by
  constructor
  · norm_num [normalizeShape, transposeQ]
  · norm_num [normalizeShape, transposeQ]

/-- C7 (amended): a 3-D tensor has its batch axis dropped and the
remaining two axes transposed unconditionally — the larger dimension
ends up on axis 0 only when the input layout was `(batch, features,
predictions)`; a 2-D tensor is transposed exactly when axis 0 is smaller
than axis 1. -/
theorem shape_normalization_amended :
    (∀ (m : List (List ℚ)) (b : List (List (List ℚ))),
        normalizeShape (RawTensor.t3 (m :: b)) = transposeQ m) ∧
    (∀ m : List (List ℚ),
        normalizeShape (RawTensor.t2 m) =
          if m.length < (m.headD []).length then transposeQ m else m) :=
  ⟨fun _ _ => rfl, fun _ => rfl⟩

/-- C8: with the model loaded, a failing image is converted to an
`ImageResult` with its `stepId` and an empty detection list, the other
images keep their results, and the batch reports `success = true`; when
the model is not loaded the whole request fails uniformly — but with
HTTP status 500, because the blanket `except Exception` of `detect`
catches the 503 `HTTPException` and re-raises it as 500. -/
theorem detect_isolation :
    (∀ (pre rest : List (String × Except PerImageError (List Detection)))
        (sid : String) (e : PerImageError),
        detect true (pre ++ (sid, .error e) :: rest) =
          .ok ⟨true, pre.map processImage ++ ⟨sid, []⟩ :: rest.map processImage⟩) ∧
    (∀ images, detect false images = .error 500) ∧
    detect false [] ≠ .error 503 := by
  refine ⟨?_, ?_, ?_⟩
  · intro pre rest sid e
    simp [detect, processImage]
  · intro images
    rfl
  · simp [detect]
